import Mathlib

/-!
Verification of the BDR fall-monitor pipeline (`app.py`).

The pipeline is embedded shallowly:

* prices are exact rationals (`ℚ`); a pandas `NaN` (missing value) is
  `none : Option ℚ`;
* a data frame for one ticker is a `List Bar` (one `Bar` per trading day,
  ascending by date), and the derived indicator columns are a `List IndRow`
  aligned index-by-index with the bars;
* `rolling(n)` aggregations use pandas defaults (`min_periods = n`): the
  result is `none` unless the window is complete and free of `NaN`;
* `ewm(span=20).mean()` uses pandas defaults (`adjust=True`,
  `ignore_na=False`): at index `i` it is the weighted mean of the
  observations at `j ≤ i` with weights `(1-α)^(i-j)`, `α = 2/21`;
* the Bollinger standard deviation needs a square root, which is not
  rational; the embedding is parameterised by the square-root routine
  `s : ℚ → ℚ` applied to the rolling sample variance.  Theorems about the
  bands only assume `s 0 = 0`;
* division by zero inside the RSI follows the float semantics of the
  source: average gain `g > 0` with average loss `p = 0` gives
  `rs = ∞`, hence `RSI = 100 - 100/(1+∞) = 100`; `g = 0` with `p = 0`
  gives `rs = NaN`, hence `RSI = NaN`.
-/

namespace MonitorBDR

/-- One daily OHLCV bar of the downloaded frame; `none` is a pandas `NaN`. -/
structure Bar where
  openv : Option ℚ
  high : Option ℚ
  low : Option ℚ
  close : Option ℚ
  volume : Option ℚ
deriving DecidableEq, Repr

/-- The indicator columns that `calcular_indicadores` adds for one ticker,
for one row of the frame. -/
structure IndRow where
  rsi14 : Option ℚ
  stoch : Option ℚ
  ema20 : Option ℚ
  sma200 : Option ℚ
  bbLower : Option ℚ
  bbUpper : Option ℚ
deriving DecidableEq, Repr

/-- Collects a list of optional values; `none` as soon as one entry is
missing (a rolling window containing a `NaN`). -/
def seqOpt : List (Option ℚ) → Option (List ℚ)
  | [] => some []
  | none :: _ => none
  | some x :: t => (seqOpt t).map (fun l => x :: l)

/-- Arithmetic mean of a window. -/
def meanQ (w : List ℚ) : ℚ := w.sum / w.length

/-- Minimum of a window (`0` on the empty window, which never occurs for a
complete rolling window). -/
def listMin : List ℚ → ℚ
  | [] => 0
  | h :: t => t.foldl min h

/-- Maximum of a window. -/
def listMax : List ℚ → ℚ
  | [] => 0
  | h :: t => t.foldl max h

/-- Sample variance (`ddof = 1`, the pandas `rolling(..).std()` default,
before the square root). -/
def sampleVar (w : List ℚ) : ℚ :=
  let m := meanQ w
  (w.map (fun x => (x - m) ^ 2)).sum / ((w.length : ℚ) - 1)

/-- Embeds `series.rolling(n).f()` with the pandas default `min_periods = n`:
entry `i` is `f` of the window `i-n+1 .. i` when the window is complete and
`NaN`-free, else `none`.  The window is materialised in descending index
order, which is irrelevant for the symmetric aggregations used here. -/
def rollingApply (f : List ℚ → ℚ) (n : ℕ) (xs : List (Option ℚ)) :
    List (Option ℚ) :=
  (List.range xs.length).map fun i =>
    if i + 1 < n then none
    else (seqOpt ((List.range n).map fun k => xs.getD (i - k) none)).map f

/-- Embeds `series.diff()`: entry `0` is `NaN`; entry `i` is `x i - x (i-1)` when
both are present. -/
def diffQ (xs : List (Option ℚ)) : List (Option ℚ) :=
  (List.range xs.length).map fun i =>
    if i = 0 then none
    else match xs.getD i none, xs.getD (i - 1) none with
      | some a, some b => some (a - b)
      | _, _ => none

/-- Embeds `delta.clip(lower=0)`. -/
def clipLower0 (xs : List (Option ℚ)) : List (Option ℚ) :=
  xs.map (Option.map fun d => max d 0)

/-- Embeds `-delta.clip(upper=0)`. -/
def negClipUpper0 (xs : List (Option ℚ)) : List (Option ℚ) :=
  xs.map (Option.map fun d => -(min d 0))

/-- Embeds `ganho = delta.clip(lower=0).rolling(14).mean()`. -/
def ganhoCol (closes : List (Option ℚ)) : List (Option ℚ) :=
  rollingApply meanQ 14 (clipLower0 (diffQ closes))

/-- Embeds `perda = -delta.clip(upper=0).rolling(14).mean()`. -/
def perdaCol (closes : List (Option ℚ)) : List (Option ℚ) :=
  rollingApply meanQ 14 (negClipUpper0 (diffQ closes))

/-- Embeds `RSI14 = 100 - 100/(1 + ganho/perda)` with float semantics for the
division: `g/0 = ∞` for `g > 0` (so the RSI is exactly `100`) and
`0/0 = NaN`. -/
def rsi14Col (closes : List (Option ℚ)) : List (Option ℚ) :=
  (List.range closes.length).map fun i =>
    match (ganhoCol closes).getD i none, (perdaCol closes).getD i none with
    | some g, some p =>
        if p = 0 then (if g = 0 then none else some 100)
        else some (100 - 100 / (1 + g / p))
    | _, _ => none

/-- Embeds `Stoch_K = 100 * (close - rolling-14 min low) / (rolling-14 max high -
rolling-14 min low)`.  When the denominator is zero the source's floats give
`NaN` for `close = lowest low` (the only possibility for well-formed bars
with `low ≤ close ≤ high`); we return `none` in that case. -/
def stochCol (highs lows closes : List (Option ℚ)) : List (Option ℚ) :=
  (List.range closes.length).map fun i =>
    match closes.getD i none, (rollingApply listMin 14 lows).getD i none,
        (rollingApply listMax 14 highs).getD i none with
    | some c, some l, some h =>
        if h - l = 0 then none else some (100 * (c - l) / (h - l))
    | _, _, _ => none

/-- Embeds `close.ewm(span=20).mean()` with pandas defaults (`adjust=True`,
`ignore_na=False`): the weighted mean of the observations so far. -/
def ewmMean (a : ℚ) (xs : List (Option ℚ)) : List (Option ℚ) :=
  (List.range xs.length).map fun i =>
    let ws := (List.range (i + 1)).filterMap fun j =>
      (xs.getD j none).map fun x => ((1 - a) ^ (i - j), x)
    if ws.isEmpty then none
    else some ((ws.map fun p => p.1 * p.2).sum / (ws.map fun p => p.1).sum)

/-- Embeds `SMA200 = close.rolling(200).mean()`. -/
def sma200Col (closes : List (Option ℚ)) : List (Option ℚ) :=
  rollingApply meanQ 200 closes

/-- Embeds `sma20 = close.rolling(20).mean()` (the Bollinger middle). -/
def sma20Col (closes : List (Option ℚ)) : List (Option ℚ) :=
  rollingApply meanQ 20 closes

/-- Rolling sample variance of the 20-day window (the quantity under the
square root of `close.rolling(20).std()`). -/
def var20Col (closes : List (Option ℚ)) : List (Option ℚ) :=
  rollingApply sampleVar 20 closes

/-- Embeds `BB_Lower = sma20 - std*2`, with `std` the square-root routine `s`
applied to the rolling sample variance. -/
def bbLowerCol (s : ℚ → ℚ) (closes : List (Option ℚ)) : List (Option ℚ) :=
  (List.range closes.length).map fun i =>
    match (sma20Col closes).getD i none, (var20Col closes).getD i none with
    | some m, some v => some (m - s v * 2)
    | _, _ => none

/-- Embeds `BB_Upper = sma20 + std*2`. -/
def bbUpperCol (s : ℚ → ℚ) (closes : List (Option ℚ)) : List (Option ℚ) :=
  (List.range closes.length).map fun i =>
    match (sma20Col closes).getD i none, (var20Col closes).getD i none with
    | some m, some v => some (m + s v * 2)
    | _, _ => none

/-- The body of the per-ticker loop of `calcular_indicadores`: the six
indicator columns, index-aligned with `bars`. -/
def calcTicker (s : ℚ → ℚ) (bars : List Bar) : List IndRow :=
  let closes := bars.map Bar.close
  let highs := bars.map Bar.high
  let lows := bars.map Bar.low
  let r := rsi14Col closes
  let st := stochCol highs lows closes
  let e := ewmMean (2 / 21) closes
  let sm := sma200Col closes
  let bl := bbLowerCol s closes
  let bu := bbUpperCol s closes
  (List.range bars.length).map fun i =>
    ⟨r.getD i none, st.getD i none, e.getD i none, sm.getD i none,
     bl.getD i none, bu.getD i none⟩

/-! ## Fibonacci and the signal classifier (`calcular_fibonacci`, `gerar_sinal`) -/

/-- Embeds `calcular_fibonacci(df_ticker)`: `None` when the frame has fewer than
50 rows, else the single 61.8 % retracement level
`low + (high - low) * 0.618` of the full-history maximum high and minimum
low.  The argument lists are the `High` and `Low` columns of the (same
length) frame. -/
def calcularFibonacci (highs lows : List ℚ) : Option ℚ :=
  if highs.length < 50 then none
  else
    let high := listMax highs
    let low := listMin lows
    some (low + (high - low) * 0.618)

/-- The score bands of `classificar` inside `gerar_sinal`. -/
def classificar (s : ℕ) : String :=
  if s ≥ 4 then ("💎 Ouro")
  else if s ≥ 2 then ("🥈 Prata")
  else if s ≥ 1 then ("🥉 Bronze")
  else ("⚪ Neutro")

/-- The fields of the last frame row that `gerar_sinal` reads via
`row_ticker.get(..)`; `none` means the column is absent (after `dropna` a
present column cannot hold `NaN` at a surviving row). -/
structure SigRow where
  close : Option ℚ
  sma200 : Option ℚ
  rsi14 : Option ℚ
  stoch : Option ℚ
  bbLower : Option ℚ
deriving DecidableEq, Repr

/-- The tuple returned by `gerar_sinal`. -/
structure Sinal where
  sinais : List String
  score : ℕ
  classif : String
  tendAlta : Bool
deriving DecidableEq, Repr

/-- Embeds `gerar_sinal(row_ticker, df_ticker)`.  The credits accrue in source
order: trend (+3), RSI (+3/+1), stochastic (+2), Bollinger (+1),
Fibonacci (+2).  When `calcular_fibonacci` returns a level but the row has
no `Close`, the source raises a `TypeError` on the comparison with `None`
and the bare `except` returns the placeholder
`([], 0, "Indefinida", False)`. -/
def gerarSinal (row : SigRow) (highs lows : List ℚ) : Sinal :=
  let t1 : List String × ℕ × Bool :=
    match row.sma200, row.close with
    | some sm, some c =>
        if c > sm then (["Trend Alta"], 3, true) else (["Trend Baixa"], 0, false)
    | _, _ => ([], 0, false)
  let t2 : List String × ℕ :=
    match row.rsi14 with
    | some r => if r < 30 then (["RSI Baixo"], 3) else if r < 40 then ([], 1) else ([], 0)
    | none => ([], 0)
  let t3 : List String × ℕ :=
    match row.stoch with
    | some k => if k < 20 then (["Stoch Fundo"], 2) else ([], 0)
    | none => ([], 0)
  let t4 : List String × ℕ :=
    match row.close, row.bbLower with
    | some c, some b => if c < b * 1.02 then (["BB Suporte"], 1) else ([], 0)
    | _, _ => ([], 0)
  let base := t1.1 ++ t2.1 ++ t3.1 ++ t4.1
  let tot := t1.2.1 + t2.2 + t3.2 + t4.2
  match calcularFibonacci highs lows, row.close with
  | some f, some c =>
      if f * 0.99 ≤ c ∧ c ≤ f * 1.01 then
        ⟨base ++ ["Fibo 61.8"], tot + 2, classificar (tot + 2), t1.2.2⟩
      else ⟨base, tot, classificar tot, t1.2.2⟩
  | some _, none => ⟨[], 0, "Indefinida", false⟩
  | none, _ => ⟨base, tot, classificar tot, t1.2.2⟩

/-! ## The per-ticker analysis loop (`analisar_oportunidades`) -/

/-- A bar with no `NaN` field (a row that `dropna()` keeps, as far as the
raw OHLCV columns are concerned). -/
def barOk (b : Bar) : Bool :=
  b.openv.isSome && b.high.isSome && b.low.isSome && b.close.isSome &&
    b.volume.isSome

/-- An indicator row with no `NaN` field. -/
def indOk (r : IndRow) : Bool :=
  r.rsi14.isSome && r.stoch.isSome && r.ema20.isSome && r.sma200.isSome &&
    r.bbLower.isSome && r.bbUpper.isSome

/-- Embeds `df_calc.xs(ticker, axis=1, level=1).dropna()`: the surviving rows of
the per-ticker frame.  When the indicator step failed for the ticker
(`ind = none`, the `except: continue` of `calcular_indicadores`), the frame
has only the raw OHLCV columns and `dropna` looks at those alone. -/
def dropnaRows (bars : List Bar) (ind : Option (List IndRow)) :
    List (Bar × Option IndRow) :=
  match ind with
  | some il => ((bars.zip il).filter fun bi => barOk bi.1 && indOk bi.2).map
      fun bi => (bi.1, some bi.2)
  | none => (bars.filter barOk).map fun b => (b, none)

/-- The decline filter of lines 213–214: a symbol survives
`if queda_dia >= 0: continue` exactly when its day-over-day change is
strictly negative. -/
def filtroQueda (q : ℚ) : Bool :=
  if q ≥ 0 then false else true

/-- Embeds `rsi = last.get('RSI14', 50)`: the 50 default fires only when the
indicator columns are absent for the ticker. -/
def rsiUsado (ind : Option IndRow) : ℚ :=
  (ind.bind IndRow.rsi14).getD 50

/-- Embeds `stoch = last.get('Stoch_K', 50)`. -/
def stochUsado (ind : Option IndRow) : ℚ :=
  (ind.bind IndRow.stoch).getD 50

/-- The company-name abbreviation of lines 224–229. -/
def ignoreList : List String :=
  ["INC", "CORP", "LTD", "S.A.", "GMBH", "PLC", "GROUP", "HOLDINGS"]

/-- Python `str.split()`: split on whitespace runs, dropping empty parts. -/
def splitWS (s : String) : List String :=
  (s.split Char.isWhitespace).filter (fun p => p ≠ "")

/-- Embeds `p.upper().replace('.', '')` (ASCII case mapping). -/
def pyUpperNoDot (p : String) : String :=
  ⟨(p.data.map Char.toUpper).filter (fun c => c ≠ '.')⟩

/-- Python `str.title()` for ASCII: a letter is upper-cased after a
non-letter and lower-cased after a letter. -/
def pyTitleAux : Bool → List Char → List Char
  | _, [] => []
  | prev, c :: rest =>
      if c.isAlpha then
        (if prev then c.toLower else c.toUpper) :: pyTitleAux true rest
      else c :: pyTitleAux false rest

/-- Python `str.title()`. -/
def pyTitle (s : String) : String := ⟨pyTitleAux false s.data⟩

/-- Lines 224–229: the shortened display name built from the catalog name
(fallback: the ticker). -/
def nomeCurto (nomeCompleto ticker : String) : String :=
  let palavras := splitWS nomeCompleto
  let uteis := palavras.filter fun p => !(ignoreList.contains (pyUpperNoDot p))
  let base := if uteis.length > 0 then String.intercalate (" ") (uteis.take 2) else ticker
  pyTitle ⟨base.data.filter (fun c => c ≠ ',')⟩

/-- One dictionary appended to `resultados`. -/
structure Row where
  ticker : String
  empresa : String
  preco : ℚ
  volume : Option ℚ
  quedaDia : ℚ
  indiceIS : ℚ
  distSma200 : ℚ
  rsi14 : ℚ
  setup : String
  tendenciaAlta : Bool
  potencial : String
  score : ℕ
  sinais : String
deriving DecidableEq, Repr

/-- The body of the per-ticker loop of `analisar_oportunidades`
(lines 199–247).  `calcOk` records whether the per-ticker indicator step of
`calcular_indicadores` succeeded; its `except: continue` (triggered by
environment conditions such as a missing downloaded column) leaves the
ticker without indicator columns.  A `none` result covers every `continue`
and the `except` of the loop. -/
def processTicker (s : ℚ → ℚ) (mapa : String → Option String) (t : String)
    (bars : List Bar) (calcOk : Bool) : Option Row :=
  let ind : Option (List IndRow) := if calcOk then some (calcTicker s bars) else none
  let df := dropnaRows bars ind
  if df.length < 200 then none
  else
    match df.getLast?, df[df.length - 2]? with
    | some lastR, some antR =>
        match lastR.1.close, antR.1.close with
        | some preco, some precoAnt =>
            let queda := (preco - precoAnt) / precoAnt * 100
            if filtroQueda queda then
              -- rows kept by `dropna` have every bar field present, so the
              -- `getD 0` defaults below are never used
              let highs := df.map fun r => r.1.high.getD 0
              let lows := df.map fun r => r.1.low.getD 0
              let sigRow : SigRow :=
                ⟨lastR.1.close, lastR.2.bind IndRow.sma200, lastR.2.bind IndRow.rsi14,
                 lastR.2.bind IndRow.stoch, lastR.2.bind IndRow.bbLower⟩
              let sig := gerarSinal sigRow highs lows
              let rsi := rsiUsado lastR.2
              let stoch := stochUsado lastR.2
              let idx := ((100 - rsi) + (100 - stoch)) / 2
              let dist : ℚ :=
                match lastR.2.bind IndRow.sma200 with
                | some sm => (preco - sm) / sm * 100
                | none => 0
              let nomeCompleto := (mapa t).getD t
              some
                { ticker := t, empresa := nomeCurto nomeCompleto t, preco := preco,
                  volume := lastR.1.volume, quedaDia := queda, indiceIS := idx,
                  distSma200 := dist, rsi14 := rsi,
                  setup := if sig.tendAlta then ("⭐ STRATEGY") else ("⚠️ Contra-Tend."),
                  tendenciaAlta := sig.tendAlta, potencial := sig.classif,
                  score := sig.score, sinais := String.intercalate (", ") sig.sinais }
            else none
        | _, _ => none
    | _, _ => none

/-- Embeds `analisar_oportunidades`: the loop over the tickers of the frame, with
the `try .. except: continue` around each body. -/
def analisarOportunidades (s : ℚ → ℚ) (mapa : String → Option String)
    (entradas : List (String × List Bar × Bool)) : List Row :=
  entradas.filterMap fun e => processTicker s mapa e.1 e.2.1 e.2.2

/-! ## Ranking (line 361) -/

/-- The priority of a row under the strategy-priority scheme: rows on the
`⭐ STRATEGY` side (close above SMA200) rank above the rest. -/
def prioScore (r : Row) : ℕ := if r.tendenciaAlta then 1 else 0

/-- The comparator realising
`sort_values(by=['Tendencia_Alta', 'Queda_Dia'], ascending=[False, True])`. -/
def resLEb (a b : Row) : Bool :=
  (a.tendenciaAlta && !b.tendenciaAlta) ||
    (a.tendenciaAlta == b.tendenciaAlta && decide (a.quedaDia ≤ b.quedaDia))

/-- Line 361: the result frame ordered by the strategy flag (descending)
and then by the day-over-day change (ascending). -/
def sortResults (l : List Row) : List Row := l.mergeSort resLEb

/-- The ordering the spec asks of the output: priority score descending,
ties broken by decline ascending. -/
def prioRel (a b : Row) : Prop :=
  prioScore b < prioScore a ∨ (prioScore a = prioScore b ∧ a.quedaDia ≤ b.quedaDia)

/-! ## Universe resolver (`obter_dados_brapi`) -/

/-- One entry of the brapi catalog; `name = none` means the key is absent
from the JSON object. -/
structure StockEntry where
  stock : String
  name : Option String
deriving DecidableEq, Repr

/-- Embeds the constant `TERMINACOES_BDR`. -/
def terminacoesBDR : List String := ["31", "32", "33", "34", "35", "39"]

/-- Embeds `d['stock'].endswith(TERMINACOES_BDR)`. -/
def isBDR (t : String) : Bool :=
  terminacoesBDR.any fun suf => suf.data.isSuffixOf t.data

/-- Embeds `bdrs_raw`: the catalog entries whose ticker has a BDR suffix, in
catalog order. -/
def bdrsRaw (dados : List StockEntry) : List StockEntry :=
  dados.filter fun d => isBDR d.stock

/-- Embeds `lista_tickers`. -/
def listaTickers (dados : List StockEntry) : List String :=
  (bdrsRaw dados).map StockEntry.stock

/-- Embeds `mapa_nomes = (d.stock to d.get('name', d.stock) for d in bdrs_raw)`:
dictionary writes in catalog order, later entries overwriting earlier ones
with the same key. -/
def mapaNomes (dados : List StockEntry) : String → Option String :=
  (bdrsRaw dados).foldl
    (fun acc d => fun k => if k = d.stock then some (d.name.getD d.stock) else acc k)
    (fun _ => none)

/-! ## Spec-side definitions for claim C1 -/

/-- Scoring scheme written from the claim's words (for comparison with the
source's `gerar_sinal`): only RSI (+3 / +1), stochastic (+2), close within
2 % above the lower Bollinger band (+1) and the ±1 % Fibonacci zone (+2)
are credited — no trend credit. -/
def specScoreC1 (row : SigRow) (highs lows : List ℚ) : ℕ :=
  (match row.rsi14 with
   | some r => if r < 30 then 3 else if 30 ≤ r ∧ r < 40 then 1 else 0
   | none => 0)
  + (match row.stoch with | some k => if k < 20 then 2 else 0 | none => 0)
  + (match row.close, row.bbLower with
     | some c, some b => if b ≤ c ∧ c ≤ b * 1.02 then 1 else 0
     | _, _ => 0)
  + (match row.close, calcularFibonacci highs lows with
     | some c, some f => if f * 0.99 ≤ c ∧ c ≤ f * 1.01 then 2 else 0
     | _, _ => 0)

/-- Category bands as the claim states them. -/
def specLabelC1 (n : ℕ) : String :=
  if n ≥ 4 then ("Gold")
  else if n ≥ 2 then ("Silver")
  else if n ≥ 1 then ("Bronze")
  else ("Neutral")

/-! ## Lemmas about the rolling combinators -/

lemma getD_range_map {α : Type} (f : ℕ → α) (d : α) (n i : ℕ) :
    (((List.range n).map f).getD i d) = if i < n then f i else d := by
  rcases lt_or_le i n with h | h
  · simp [List.getD_eq_getElem?_getD, List.getElem?_range h, h]
  · rw [List.getD_eq_getElem?_getD, List.getElem?_eq_none (by simpa using h), if_neg (by omega)]
    rfl

lemma getD_eq_none_of_le {α : Type} (l : List α) (i : ℕ) (h : l.length ≤ i) (d : α) :
    l.getD i d = d := by
  rw [List.getD_eq_getElem?_getD, List.getElem?_eq_none h]; rfl

lemma seqOpt_map_some (l : List ℚ) : seqOpt (l.map some) = some l := by
  induction l with
  | nil => rfl
  | cons h t ih => simp [seqOpt, ih]

lemma seqOpt_mem {l : List (Option ℚ)} {w : List ℚ} (h : seqOpt l = some w) :
    ∀ x ∈ w, some x ∈ l := by
  induction l generalizing w with
  | nil =>
    simp only [seqOpt, Option.some.injEq] at h
    subst h; simp
  | cons hd t ih =>
    cases hd with
    | none => simp [seqOpt] at h
    | some a =>
      simp only [seqOpt] at h
      cases ht : seqOpt t with
      | none => rw [ht] at h; simp at h
      | some w' =>
        rw [ht] at h
        simp only [Option.map_some', Option.some.injEq] at h
        subst h
        intro x hx
        rcases List.mem_cons.mp hx with rfl | hx
        · simp
        · simp [ih ht x hx]

lemma seqOpt_none_mem {l : List (Option ℚ)} (h : none ∈ l) : seqOpt l = none := by
  induction l with
  | nil => simp at h
  | cons hd t ih =>
    cases hd with
    | none => rfl
    | some a =>
      rcases List.mem_cons.mp h with h' | h'
      · exact absurd h'.symm (by simp)
      · simp [seqOpt, ih h']

lemma length_rollingApply (f : List ℚ → ℚ) (n : ℕ) (xs : List (Option ℚ)) :
    (rollingApply f n xs).length = xs.length := by
  simp [rollingApply]

lemma rollingApply_getD (f : List ℚ → ℚ) (n : ℕ) (xs : List (Option ℚ)) (i : ℕ)
    (hi : i < xs.length) :
    (rollingApply f n xs).getD i none =
      if i + 1 < n then none
      else (seqOpt ((List.range n).map fun k => xs.getD (i - k) none)).map f := by
  simp [rollingApply, getD_range_map, hi]

lemma rollingApply_getD_window (f : List ℚ → ℚ) (n : ℕ) (xs : List (Option ℚ)) (i : ℕ)
    (g : ℕ → ℚ) (hi : i < xs.length) (hn : n ≤ i + 1)
    (hw : ∀ k < n, xs.getD (i - k) none = some (g k)) :
    (rollingApply f n xs).getD i none = some (f ((List.range n).map g)) := by
  rw [rollingApply_getD f n xs i hi, if_neg (by omega)]
  have hmap : ((List.range n).map fun k => xs.getD (i - k) none) =
      ((List.range n).map g).map some := by
    rw [List.map_map]
    exact List.map_congr_left fun k hk => hw k (List.mem_range.mp hk)
  rw [hmap, seqOpt_map_some, Option.map_some']

lemma getD_map_optMap (g : ℚ → ℚ) (xs : List (Option ℚ)) (i : ℕ) :
    (xs.map (Option.map g)).getD i none = Option.map g (xs.getD i none) := by
  simp only [List.getD_eq_getElem?_getD, List.getElem?_map]
  cases xs[i]? <;> rfl

lemma length_diffQ (xs : List (Option ℚ)) : (diffQ xs).length = xs.length := by
  simp [diffQ]

lemma diffQ_getD (xs : List (Option ℚ)) (i : ℕ) (hi : i < xs.length) :
    (diffQ xs).getD i none =
      if i = 0 then none
      else match xs.getD i none, xs.getD (i - 1) none with
        | some a, some b => some (a - b)
        | _, _ => none := by
  simp [diffQ, getD_range_map, hi]

lemma mean_nonneg_of_mem {w : List ℚ} (h : ∀ x ∈ w, 0 ≤ x) : 0 ≤ meanQ w := by
  unfold meanQ
  exact div_nonneg (List.sum_nonneg h) (by positivity)

lemma ganhoCol_length (closes : List (Option ℚ)) :
    (ganhoCol closes).length = closes.length := by
  simp [ganhoCol, length_rollingApply, clipLower0, length_diffQ]

lemma perdaCol_length (closes : List (Option ℚ)) :
    (perdaCol closes).length = closes.length := by
  simp [perdaCol, length_rollingApply, negClipUpper0, length_diffQ]

lemma ganhoCol_nonneg {closes : List (Option ℚ)} {i : ℕ} {g : ℚ}
    (h : (ganhoCol closes).getD i none = some g) : 0 ≤ g := by
  unfold ganhoCol at h
  set ys := clipLower0 (diffQ closes) with hys
  have hi : i < ys.length := by
    by_contra hge
    rw [getD_eq_none_of_le _ i (by rw [length_rollingApply]; omega)] at h
    exact Option.noConfusion h
  rw [rollingApply_getD _ _ _ _ hi] at h
  split at h
  · exact Option.noConfusion h
  · cases hseq : seqOpt ((List.range 14).map fun k => ys.getD (i - k) none) with
    | none => rw [hseq] at h; exact Option.noConfusion h
    | some w =>
      rw [hseq, Option.map_some', Option.some.injEq] at h
      subst h
      refine mean_nonneg_of_mem fun x hx => ?_
      have hmem := seqOpt_mem hseq x hx
      obtain ⟨k, _, hk⟩ := List.mem_map.mp hmem
      rw [hys, clipLower0, getD_map_optMap] at hk
      cases hd : (diffQ closes).getD (i - k) none with
      | none => rw [hd] at hk; exact Option.noConfusion hk
      | some d =>
        rw [hd, Option.map_some', Option.some.injEq] at hk
        rw [← hk]; exact le_max_right d 0

lemma perdaCol_nonneg {closes : List (Option ℚ)} {i : ℕ} {p : ℚ}
    (h : (perdaCol closes).getD i none = some p) : 0 ≤ p := by
  unfold perdaCol at h
  set ys := negClipUpper0 (diffQ closes) with hys
  have hi : i < ys.length := by
    by_contra hge
    rw [getD_eq_none_of_le _ i (by rw [length_rollingApply]; omega)] at h
    exact Option.noConfusion h
  rw [rollingApply_getD _ _ _ _ hi] at h
  split at h
  · exact Option.noConfusion h
  · cases hseq : seqOpt ((List.range 14).map fun k => ys.getD (i - k) none) with
    | none => rw [hseq] at h; exact Option.noConfusion h
    | some w =>
      rw [hseq, Option.map_some', Option.some.injEq] at h
      subst h
      refine mean_nonneg_of_mem fun x hx => ?_
      have hmem := seqOpt_mem hseq x hx
      obtain ⟨k, _, hk⟩ := List.mem_map.mp hmem
      rw [hys, negClipUpper0, getD_map_optMap] at hk
      cases hd : (diffQ closes).getD (i - k) none with
      | none => rw [hd] at hk; exact Option.noConfusion hk
      | some d =>
        rw [hd, Option.map_some', Option.some.injEq] at hk
        rw [← hk]
        simp only [neg_nonneg]
        exact min_le_right d 0

lemma rsi14Col_getD (closes : List (Option ℚ)) (i : ℕ) (hi : i < closes.length) :
    (rsi14Col closes).getD i none =
      match (ganhoCol closes).getD i none, (perdaCol closes).getD i none with
      | some g, some p =>
          if p = 0 then (if g = 0 then none else some 100)
          else some (100 - 100 / (1 + g / p))
      | _, _ => none := by
  simp [rsi14Col, getD_range_map, hi]

lemma rsi14Col_length (closes : List (Option ℚ)) :
    (rsi14Col closes).length = closes.length := by
  simp [rsi14Col]

lemma rsi14Col_getD_ss (closes : List (Option ℚ)) (i : ℕ) (hi : i < closes.length)
    {g p : ℚ} (hg : (ganhoCol closes).getD i none = some g)
    (hp : (perdaCol closes).getD i none = some p) :
    (rsi14Col closes).getD i none =
      if p = 0 then (if g = 0 then none else some 100)
      else some (100 - 100 / (1 + g / p)) := by
  rw [rsi14Col_getD closes i hi, hg, hp]

lemma diffQ_getD_some (c : ℕ → ℚ) (n j : ℕ) (h1 : 1 ≤ j) (hj : j < n) :
    (diffQ ((List.range n).map fun j => some (c j))).getD j none =
      some (c j - c (j - 1)) := by
  rw [diffQ_getD _ j (by simpa using hj), if_neg (by omega)]
  rw [getD_range_map, getD_range_map, if_pos hj, if_pos (by omega)]

lemma ganhoCol_getD_last (c : ℕ → ℚ) (n : ℕ) (h : 15 ≤ n) :
    (ganhoCol ((List.range n).map fun j => some (c j))).getD (n - 1) none =
      some (meanQ ((List.range 14).map fun k =>
        max (c (n - 1 - k) - c (n - 1 - k - 1)) 0)) := by
  unfold ganhoCol
  apply rollingApply_getD_window
  · simp [clipLower0, length_diffQ]; omega
  · omega
  · intro k hk
    rw [clipLower0, getD_map_optMap,
      diffQ_getD_some c n (n - 1 - k) (by omega) (by omega), Option.map_some']

lemma perdaCol_getD_last (c : ℕ → ℚ) (n : ℕ) (h : 15 ≤ n) :
    (perdaCol ((List.range n).map fun j => some (c j))).getD (n - 1) none =
      some (meanQ ((List.range 14).map fun k =>
        -(min (c (n - 1 - k) - c (n - 1 - k - 1)) 0))) := by
  unfold perdaCol
  apply rollingApply_getD_window
  · simp [negClipUpper0, length_diffQ]; omega
  · omega
  · intro k hk
    rw [negClipUpper0, getD_map_optMap,
      diffQ_getD_some c n (n - 1 - k) (by omega) (by omega), Option.map_some']

/-- **C6.**  The RSI(14) column computed by `calcular_indicadores` lies in
`[0, 100]` wherever it is defined; on a strictly increasing price series of
at least 15 bars it equals `100` at the last bar (the average loss is zero
and the float arithmetic of the source yields exactly `100`), and on a
strictly decreasing series it equals `0`. -/
theorem claim6_rsi_range_monotone :
    (∀ (closes : List (Option ℚ)) (i : ℕ) (r : ℚ),
        (rsi14Col closes).getD i none = some r → 0 ≤ r ∧ r ≤ 100)
    ∧ (∀ (c : ℕ → ℚ) (n : ℕ), 15 ≤ n → (∀ j, c j < c (j + 1)) →
        (rsi14Col ((List.range n).map fun j => some (c j))).getD (n - 1) none
          = some 100)
    ∧ (∀ (c : ℕ → ℚ) (n : ℕ), 15 ≤ n → (∀ j, c (j + 1) < c j) →
        (rsi14Col ((List.range n).map fun j => some (c j))).getD (n - 1) none
          = some 0) := by
  refine ⟨?_, ?_, ?_⟩
  · intro closes i r h
    have hi : i < closes.length := by
      by_contra hge
      rw [getD_eq_none_of_le _ i (by rw [rsi14Col_length]; omega)] at h
      exact Option.noConfusion h
    cases hg : (ganhoCol closes).getD i none with
    | none =>
      rw [rsi14Col_getD closes i hi, hg] at h
      exact Option.noConfusion h
    | some g =>
      cases hp : (perdaCol closes).getD i none with
      | none =>
        rw [rsi14Col_getD closes i hi, hg, hp] at h
        exact Option.noConfusion h
      | some p =>
        rw [rsi14Col_getD_ss closes i hi hg hp] at h
        have hg0 : 0 ≤ g := ganhoCol_nonneg hg
        have hp0 : 0 ≤ p := perdaCol_nonneg hp
        by_cases hpz : p = 0
        · rw [if_pos hpz] at h
          by_cases hgz : g = 0
          · rw [if_pos hgz] at h; exact Option.noConfusion h
          · rw [if_neg hgz, Option.some.injEq] at h
            subst h
            constructor <;> norm_num
        · rw [if_neg hpz, Option.some.injEq] at h
          subst h
          have hppos : 0 < p := lt_of_le_of_ne hp0 (Ne.symm hpz)
          have hd0 : 0 ≤ g / p := div_nonneg hg0 hp0
          have h1 : (0:ℚ) < 1 + g / p := by linarith
          have h2 : 100 / (1 + g / p) ≤ 100 := by
            rw [div_le_iff h1]; nlinarith
          have h3 : 0 < 100 / (1 + g / p) := by positivity
          constructor <;> linarith
  · intro c n hn hmono
    have hδ : ∀ j, 1 ≤ j → 0 < c j - c (j - 1) := by
      intro j hj
      have h := hmono (j - 1)
      rw [Nat.sub_add_cancel hj] at h
      linarith
    have hg := ganhoCol_getD_last c n hn
    have hp := perdaCol_getD_last c n hn
    have hpz : meanQ ((List.range 14).map fun k =>
        -(min (c (n - 1 - k) - c (n - 1 - k - 1)) 0)) = 0 := by
      have hmap : ((List.range 14).map fun k =>
          -(min (c (n - 1 - k) - c (n - 1 - k - 1)) 0)) =
            (List.range 14).map fun _ => (0:ℚ) := by
        apply List.map_congr_left
        intro k hk
        have hkd := hδ (n - 1 - k) (by have := List.mem_range.mp hk; omega)
        rw [min_eq_right (le_of_lt hkd), neg_zero]
      rw [hmap]
      simp [meanQ]
    have hgpos : 0 < meanQ ((List.range 14).map fun k =>
        max (c (n - 1 - k) - c (n - 1 - k - 1)) 0) := by
      unfold meanQ
      apply div_pos
      · apply List.sum_pos
        · intro x hx
          obtain ⟨k, hk, rfl⟩ := List.mem_map.mp hx
          have hkd := hδ (n - 1 - k) (by have := List.mem_range.mp hk; omega)
          exact lt_max_of_lt_left hkd
        · simp
      · simp
    rw [hpz] at hp
    rw [rsi14Col_getD_ss _ _ (by simp; omega) hg hp]
    rw [if_pos rfl, if_neg (ne_of_gt hgpos)]
  · intro c n hn hmono
    have hδ : ∀ j, 1 ≤ j → c j - c (j - 1) < 0 := by
      intro j hj
      have h := hmono (j - 1)
      rw [Nat.sub_add_cancel hj] at h
      linarith
    have hg := ganhoCol_getD_last c n hn
    have hp := perdaCol_getD_last c n hn
    have hgz : meanQ ((List.range 14).map fun k =>
        max (c (n - 1 - k) - c (n - 1 - k - 1)) 0) = 0 := by
      have hmap : ((List.range 14).map fun k =>
          max (c (n - 1 - k) - c (n - 1 - k - 1)) 0) =
            (List.range 14).map fun _ => (0:ℚ) := by
        apply List.map_congr_left
        intro k hk
        have hkd := hδ (n - 1 - k) (by have := List.mem_range.mp hk; omega)
        rw [max_eq_right (le_of_lt hkd)]
      rw [hmap]
      simp [meanQ]
    have hppos : 0 < meanQ ((List.range 14).map fun k =>
        -(min (c (n - 1 - k) - c (n - 1 - k - 1)) 0)) := by
      unfold meanQ
      apply div_pos
      · apply List.sum_pos
        · intro x hx
          obtain ⟨k, hk, rfl⟩ := List.mem_map.mp hx
          have hkd := hδ (n - 1 - k) (by have := List.mem_range.mp hk; omega)
          rw [min_eq_left (le_of_lt hkd)]
          linarith
        · simp
      · simp
    rw [hgz] at hg
    rw [rsi14Col_getD_ss _ _ (by simp; omega) hg hp]
    rw [if_neg (ne_of_gt hppos)]
    norm_num

/-- Witness for C6 at concrete series: the strictly increasing closes
`0, 1, …, 14` give RSI exactly `100` at the last bar (a value inside
`[0, 100]`), and the strictly decreasing closes `15, 14, …, 1` give `0`. -/
theorem claim6_witness :
    ((0:ℚ) ≤ 100 ∧ (100:ℚ) ≤ 100)
    ∧ (rsi14Col ((List.range 15).map fun j : ℕ => some ((j:ℚ)))).getD 14 none
        = some 100
    ∧ (rsi14Col ((List.range 15).map fun j : ℕ => some ((15:ℚ) - (j:ℚ)))).getD 14 none
        = some 0 := by
  have h100 := claim6_rsi_range_monotone.2.1 (fun j : ℕ => (j:ℚ)) 15 (by norm_num)
    (fun j => by push_cast; linarith)
  have h0 := claim6_rsi_range_monotone.2.2 (fun j : ℕ => (15:ℚ) - (j:ℚ)) 15 (by norm_num)
    (fun j => by push_cast; linarith)
  exact ⟨claim6_rsi_range_monotone.1 _ 14 100 (by simpa using h100),
    by simpa using h100, by simpa using h0⟩

/-! ## Lemmas about the analysis loop -/

lemma dropnaRows_length_le (bars : List Bar) (ind : Option (List IndRow)) :
    (dropnaRows bars ind).length ≤ bars.length := by
  cases ind with
  | none =>
    simp only [dropnaRows, List.length_map]
    exact List.length_filter_le _ _
  | some il =>
    simp only [dropnaRows, List.length_map]
    calc ((bars.zip il).filter fun bi => barOk bi.1 && indOk bi.2).length
        ≤ (bars.zip il).length := List.length_filter_le _ _
      _ ≤ bars.length := by rw [List.length_zip]; exact min_le_left _ _

lemma processTicker_eq_none_of_short (s : ℚ → ℚ) (mapa : String → Option String)
    (t : String) (bars : List Bar) (ok : Bool) (h : bars.length < 200) :
    processTicker s mapa t bars ok = none := by
  simp only [processTicker]
  rw [if_pos (lt_of_le_of_lt (dropnaRows_length_le bars _) h)]

lemma gerarSinal_classif_eq (row : SigRow) (highs lows : List ℚ) (c : ℚ)
    (hc : row.close = some c) :
    (gerarSinal row highs lows).classif =
      classificar ((gerarSinal row highs lows).score) := by
  obtain ⟨cl, sm, rs, st, bb⟩ := row
  obtain rfl : cl = some c := hc
  rcases hf : calcularFibonacci highs lows with _ | f <;>
    simp only [gerarSinal, hf] <;>
    first
      | rfl
      | (split <;> rfl)

lemma processTicker_potencial {s : ℚ → ℚ} {mapa : String → Option String}
    {t : String} {bars : List Bar} {ok : Bool} {r : Row}
    (h : processTicker s mapa t bars ok = some r) :
    r.potencial = classificar r.score := by
  simp only [processTicker] at h
  set ind : Option (List IndRow) :=
    if ok = true then some (calcTicker s bars) else none with hind
  split at h
  · exact Option.noConfusion h
  · split at h
    · split at h
      · split at h
        · injection h with h'
          subst h'
          exact gerarSinal_classif_eq _ _ _ _ (by assumption)
        · exact Option.noConfusion h
      · exact Option.noConfusion h
    · exact Option.noConfusion h

/-- **C4.**  A symbol whose per-ticker processing fails (any `continue` or
exception inside the loop body of `analisar_oportunidades`, modelled by
`processTicker .. = none`) is simply absent from the batch output, and the
output for the remaining symbols is unchanged; moreover no emitted row
carries placeholder values: every row's category is `classificar` of its
score (the `"Indefinida"` fallback of `gerar_sinal` is unreachable because
the loop guarantees a present close before calling it). -/
theorem claim4_per_symbol_isolation (s : ℚ → ℚ) (mapa : String → Option String)
    (l₁ l₂ : List (String × List Bar × Bool)) (t : String) (bars : List Bar)
    (ok : Bool) (h : processTicker s mapa t bars ok = none) :
    analisarOportunidades s mapa (l₁ ++ (t, bars, ok) :: l₂)
      = analisarOportunidades s mapa (l₁ ++ l₂)
    ∧ ∀ r ∈ analisarOportunidades s mapa (l₁ ++ (t, bars, ok) :: l₂),
        r.potencial = classificar r.score := by
  constructor
  · simp [analisarOportunidades, List.filterMap_append, List.filterMap_cons, h]
  · intro r hr
    simp only [analisarOportunidades, List.mem_filterMap] at hr
    obtain ⟨e, _, hpe⟩ := hr
    exact processTicker_potencial hpe

/-- Witness for C4: with one-bar histories every symbol is skipped
(`len(df_ticker) < 200`), so dropping the failing symbol `B` leaves the
output for `A` unchanged (both runs give the empty result). -/
theorem claim4_witness :
    analisarOportunidades id (fun _ => none)
        [("A", [], true), ("B", [], true)]
      = analisarOportunidades id (fun _ => none) [("A", [], true)] := by
  have h := (claim4_per_symbol_isolation id (fun _ => none)
    [("A", [], true)] [] ("B") [] true (by rfl)).1
  simpa using h

/-- **C5.**  A symbol with fewer than 200 daily bars gets an all-`NaN`
SMA200 column (never a fabricated number), and `analisar_oportunidades`
excludes it from the output (its per-ticker processing yields nothing). -/
theorem claim5_sma200_undefined_excluded (s : ℚ → ℚ) (mapa : String → Option String)
    (t : String) (bars : List Bar) (ok : Bool) (h : bars.length < 200) :
    (∀ r ∈ calcTicker s bars, r.sma200 = none)
    ∧ processTicker s mapa t bars ok = none := by
  constructor
  · intro r hr
    simp only [calcTicker, List.mem_map, List.mem_range] at hr
    obtain ⟨i, hi, rfl⟩ := hr
    show (sma200Col (bars.map Bar.close)).getD i none = none
    rw [sma200Col, rollingApply_getD meanQ 200 _ i (by simpa using hi),
      if_pos (by omega)]
  · exact processTicker_eq_none_of_short s mapa t bars ok h

/-! ## Bollinger bands on a constant series -/

lemma replicate_getD_some (c : ℚ) (n i : ℕ) (hi : i < n) :
    (List.replicate n (some c)).getD i none = some c := by
  rw [List.getD_eq_getElem?_getD, List.getElem?_replicate_of_lt hi]
  rfl

lemma meanQ_replicate (m : ℕ) (c : ℚ) (hm : m ≠ 0) :
    meanQ (List.replicate m c) = c := by
  rw [meanQ]
  simp only [List.sum_replicate, List.length_replicate, nsmul_eq_mul]
  rw [mul_div_cancel_left₀ c (show (m:ℚ) ≠ 0 by exact_mod_cast hm)]

lemma meanQ_const (m : ℕ) (c : ℚ) (hm : m ≠ 0) :
    meanQ ((List.range m).map fun _ => c) = c := by
  rw [List.map_const', List.length_range]
  exact meanQ_replicate m c hm

lemma sampleVar_const (m : ℕ) (c : ℚ) (hm : m ≠ 0) :
    sampleVar ((List.range m).map fun _ => c) = 0 := by
  rw [List.map_const', List.length_range]
  simp only [sampleVar, meanQ_replicate m c hm, List.map_replicate]
  simp

lemma sma20Col_const (c : ℚ) (n i : ℕ) (h19 : 19 ≤ i) (hin : i < n) :
    (sma20Col (List.replicate n (some c))).getD i none = some c := by
  rw [sma20Col, rollingApply_getD_window meanQ 20 _ i (fun _ => c)
    (by simpa using hin) (by omega)
    (fun k hk => replicate_getD_some c n (i - k) (by omega))]
  rw [meanQ_const 20 c (by norm_num)]

lemma var20Col_const (c : ℚ) (n i : ℕ) (h19 : 19 ≤ i) (hin : i < n) :
    (var20Col (List.replicate n (some c))).getD i none = some 0 := by
  rw [var20Col, rollingApply_getD_window sampleVar 20 _ i (fun _ => c)
    (by simpa using hin) (by omega)
    (fun k hk => replicate_getD_some c n (i - k) (by omega))]
  rw [sampleVar_const 20 c (by norm_num)]

/-- **C7 (corrected).**  For a constant close series the rolling sample
variance is zero, so both Bollinger bands coincide with the SMA20
(`s` is the square-root routine, which sends `0` to `0`); but the
Bollinger condition of `gerar_sinal` — `close < bb_lower * 1.02` — *does*
fire on such a symbol whenever the constant price is positive, because the
band equals the close itself. -/
theorem claim7_amended_bollinger (s : ℚ → ℚ) (c : ℚ) (n i : ℕ)
    (hs : s 0 = 0) (h19 : 19 ≤ i) (hin : i < n) :
    (bbLowerCol s (List.replicate n (some c))).getD i none = some c
    ∧ (bbUpperCol s (List.replicate n (some c))).getD i none = some c
    ∧ (sma20Col (List.replicate n (some c))).getD i none = some c
    ∧ (("BB Suporte" ∈ (gerarSinal
          ⟨some c, none, none, none,
            (bbLowerCol s (List.replicate n (some c))).getD i none⟩ [] []).sinais)
        ↔ 0 < c) := by
  have hsma := sma20Col_const c n i h19 hin
  have hvar := var20Col_const c n i h19 hin
  have hlen : i < (List.replicate n (some c) : List (Option ℚ)).length := by
    simpa using hin
  have hlow : (bbLowerCol s (List.replicate n (some c))).getD i none = some c := by
    rw [bbLowerCol, getD_range_map, if_pos hlen, hsma, hvar]
    show some (c - s 0 * 2) = some c
    rw [hs]
    norm_num
  have hup : (bbUpperCol s (List.replicate n (some c))).getD i none = some c := by
    rw [bbUpperCol, getD_range_map, if_pos hlen, hsma, hvar]
    show some (c + s 0 * 2) = some c
    rw [hs]
    norm_num
  refine ⟨hlow, hup, hsma, ?_⟩
  rw [hlow]
  have hfib : calcularFibonacci ([] : List ℚ) ([] : List ℚ) = none := by
    simp [calcularFibonacci]
  by_cases hc : c < c * 1.02
  · simp only [gerarSinal, hfib, if_pos hc]
    constructor
    · intro _; linarith
    · intro _; simp
  · simp only [gerarSinal, hfib, if_neg hc]
    constructor
    · intro habs; simp at habs
    · intro h0; exact absurd (by linarith : c < c * 1.02) hc

/-- Counterexample for C7: on the constant close series `100, …, 100`
(20 bars) both bands equal the SMA20 (= 100), yet the Bollinger credit
`close < bb_lower * 1.02` fires — contrary to the claim that no
Bollinger-breach condition fires on a zero-volatility series. -/
theorem claim7_counterexample :
    (bbLowerCol id (List.replicate 20 (some (100:ℚ)))).getD 19 none = some 100
    ∧ "BB Suporte" ∈ (gerarSinal
        ⟨some 100, none, none, none,
          (bbLowerCol id (List.replicate 20 (some (100:ℚ)))).getD 19 none⟩
        [] []).sinais := by
  have hsma := sma20Col_const (100:ℚ) 20 19 (by norm_num) (by norm_num)
  have hvar := var20Col_const (100:ℚ) 20 19 (by norm_num) (by norm_num)
  have hlen : (19:ℕ) < (List.replicate 20 (some (100:ℚ)) : List (Option ℚ)).length := by
    simp
  have hlow : (bbLowerCol id (List.replicate 20 (some (100:ℚ)))).getD 19 none
      = some 100 := by
    rw [bbLowerCol, getD_range_map, if_pos hlen, hsma, hvar]
    show some (100 - id 0 * 2) = some 100
    norm_num
  refine ⟨hlow, ?_⟩
  rw [hlow]
  have hfib : calcularFibonacci ([] : List ℚ) ([] : List ℚ) = none := by
    simp [calcularFibonacci]
  simp only [gerarSinal, hfib]
  norm_num

/-- Witness for C7 at a concrete input: the amended theorem applied to the
identity square-root routine, a constant close of `100` and 20 bars. -/
theorem claim7_witness :
    (bbLowerCol id (List.replicate 20 (some (100:ℚ)))).getD 19 none = some 100
    ∧ (bbUpperCol id (List.replicate 20 (some (100:ℚ)))).getD 19 none = some 100
    ∧ (sma20Col (List.replicate 20 (some (100:ℚ)))).getD 19 none = some 100
    ∧ (("BB Suporte" ∈ (gerarSinal
          ⟨some 100, none, none, none,
            (bbLowerCol id (List.replicate 20 (some (100:ℚ)))).getD 19 none⟩
          [] []).sinais) ↔ (0:ℚ) < 100) :=
  claim7_amended_bollinger id 100 20 19 rfl (by decide) (by decide)

/-- Witness for C5: a single-bar history has an all-`NaN` SMA200 column and
is excluded from the analysis output. -/
theorem claim5_witness :
    (∀ r ∈ calcTicker id [⟨some 1, some 2, some 0, some 1, some 5⟩], r.sma200 = none)
    ∧ processTicker id (fun _ => none) ("T")
        [⟨some 1, some 2, some 0, some 1, some 5⟩] true = none :=
  claim5_sma200_undefined_excluded id (fun _ => none) ("T")
    [⟨some 1, some 2, some 0, some 1, some 5⟩] true (by decide)

/-! ## The C1 scoring scheme -/

/-- Counterexample for C1: a row with close 100 above its SMA200 of 50 and
all oscillators neutral scores 3 in `gerar_sinal` (the +3 trend credit the
claim omits), while the claim's credit list totals 0. -/
theorem claim1_counterexample :
    (gerarSinal ⟨some 100, some 50, some 50, some 50, some 10⟩ [] []).score
      ≠ specScoreC1 ⟨some 100, some 50, some 50, some 50, some 10⟩ [] []
    ∧ specLabelC1 (specScoreC1 ⟨some 100, some 50, some 50, some 50, some 10⟩ [] [])
        = ("Neutral")
    ∧ (gerarSinal ⟨some 100, some 50, some 50, some 50, some 10⟩ [] []).classif
        = ("🥈 Prata") := by
  have hfib : calcularFibonacci ([] : List ℚ) ([] : List ℚ) = none := by
    simp [calcularFibonacci]
  refine ⟨?_, ?_, ?_⟩ <;>
    norm_num [gerarSinal, specScoreC1, specLabelC1, classificar, hfib]

set_option maxHeartbeats 1600000 in
/-- **C1 (corrected).**  For every row with a present close, the score of
`gerar_sinal` is the sum of: +3 if close is above SMA200, +3 if RSI < 30,
+1 if 30 ≤ RSI < 40, +2 if Stochastic %K < 20, +1 if close < 1.02 × lower
Bollinger band (also when the close is *below* the band), and +2 if close
is within ±1 % of the 61.8 % Fibonacci level; the label is `classificar`
of that total (`≥4` Ouro/Gold, `≥2` Prata/Silver, `≥1` Bronze, else
Neutro). -/
theorem claim1_amended_score (row : SigRow) (highs lows : List ℚ) (c : ℚ)
    (hc : row.close = some c) :
    (gerarSinal row highs lows).score =
      (match row.sma200 with | some sm => if c > sm then 3 else 0 | none => 0)
      + (match row.rsi14 with
         | some r => if r < 30 then 3 else if r < 40 then 1 else 0
         | none => 0)
      + (match row.stoch with | some k => if k < 20 then 2 else 0 | none => 0)
      + (match row.bbLower with
         | some b => if c < b * 1.02 then 1 else 0
         | none => 0)
      + (match calcularFibonacci highs lows with
         | some f => if f * 0.99 ≤ c ∧ c ≤ f * 1.01 then 2 else 0
         | none => 0)
    ∧ (gerarSinal row highs lows).classif
        = classificar ((gerarSinal row highs lows).score) := by
  refine ⟨?_, gerarSinal_classif_eq row highs lows c hc⟩
  obtain ⟨cl, sm, rs, st, bb⟩ := row
  obtain rfl : cl = some c := hc
  rcases hf : calcularFibonacci highs lows with _ | f <;>
    cases sm <;> cases rs <;> cases st <;> cases bb <;>
      (simp only [gerarSinal, hf]; try (split_ifs <;> rfl); try rfl)

/-- Witness for C1: the amended formula applied to the counterexample row
gives score 3 (trend credit only) and the matching label band. -/
theorem claim1_witness :
    (gerarSinal ⟨some 100, some 50, some 50, some 50, some 10⟩ [] []).score = 3
    ∧ (gerarSinal ⟨some 100, some 50, some 50, some 50, some 10⟩ [] []).classif
        = classificar
            ((gerarSinal ⟨some 100, some 50, some 50, some 50, some 10⟩ [] []).score) := by
  have h := claim1_amended_score ⟨some 100, some 50, some 50, some 50, some 10⟩
    [] [] 100 rfl
  refine ⟨?_, h.2⟩
  rw [h.1]
  norm_num [calcularFibonacci]

/-! ## The decline filter -/

/-- Counterexample for C8: the claim asserts that a day-over-day change
exactly equal to the configured threshold (here `0`, the hard-coded bound
of `if queda_dia >= 0: continue`) qualifies; the source's comparison is
strict, so a change of exactly `0` is rejected. -/
theorem claim8_counterexample : ¬ (filtroQueda 0 = true) := by
  norm_num [filtroQueda]

/-- **C8 (corrected).**  The decline filter of `analisar_oportunidades` has
threshold `0` and is strict: a symbol qualifies exactly when its
day-over-day change is strictly negative; a change of exactly `0` does not
qualify, and neither does `+0.0001`. -/
theorem claim8_amended_strict_decline :
    filtroQueda 0 = false
    ∧ filtroQueda (1/10000 : ℚ) = false
    ∧ ∀ q : ℚ, filtroQueda q = true ↔ q < 0 := by
  refine ⟨by norm_num [filtroQueda], by norm_num [filtroQueda], ?_⟩
  intro q
  unfold filtroQueda
  split_ifs with h
  · simp only [Bool.false_eq_true, false_iff]
    exact not_lt.mpr h
  · simp only [true_iff]
    exact lt_of_not_ge h

/-! ## The RSI fallback (C3) -/

lemma incr15_ganho :
    (ganhoCol ((List.range 15).map fun j : ℕ => some ((j:ℚ)))).getD 14 none
      = some 1 := by
  have h := ganhoCol_getD_last (fun j : ℕ => (j:ℚ)) 15 (by norm_num)
  rw [show (15:ℕ) - 1 = 14 from rfl] at h
  rw [h]
  have hmap : ((List.range 14).map fun k =>
      max (((14 - k : ℕ):ℚ) - ((14 - k - 1 : ℕ):ℚ)) 0) =
        (List.range 14).map fun _ => (1:ℚ) := by
    apply List.map_congr_left
    intro k hk
    have hk14 : k < 14 := List.mem_range.mp hk
    have hδ : ((14 - k : ℕ):ℚ) - ((14 - k - 1 : ℕ):ℚ) = 1 := by
      have h1 : (14 - k - 1 : ℕ) + 1 = 14 - k := by omega
      rw [← h1]
      push_cast
      ring
    rw [hδ]
    norm_num
  rw [hmap, meanQ_const 14 1 (by norm_num)]

lemma incr15_perda :
    (perdaCol ((List.range 15).map fun j : ℕ => some ((j:ℚ)))).getD 14 none
      = some 0 := by
  have h := perdaCol_getD_last (fun j : ℕ => (j:ℚ)) 15 (by norm_num)
  rw [show (15:ℕ) - 1 = 14 from rfl] at h
  rw [h]
  have hmap : ((List.range 14).map fun k =>
      -(min (((14 - k : ℕ):ℚ) - ((14 - k - 1 : ℕ):ℚ)) 0)) =
        (List.range 14).map fun _ => (0:ℚ) := by
    apply List.map_congr_left
    intro k hk
    have hk14 : k < 14 := List.mem_range.mp hk
    have hδ : ((14 - k : ℕ):ℚ) - ((14 - k - 1 : ℕ):ℚ) = 1 := by
      have h1 : (14 - k - 1 : ℕ) + 1 = 14 - k := by omega
      rw [← h1]
      push_cast
      ring
    rw [hδ]
    norm_num
  rw [hmap, meanQ_const 14 0 (by norm_num)]

lemma incr15_rsi :
    (rsi14Col ((List.range 15).map fun j : ℕ => some ((j:ℚ)))).getD 14 none
      = some 100 := by
  rw [rsi14Col_getD_ss _ 14 (by simp) incr15_ganho incr15_perda]
  norm_num

/-- Counterexample for C3: on the strictly increasing closes `0, 1, …, 14`
the average loss at the evaluated bar is zero — the case the claim calls
"RSI undefined" and requires to be treated as 50 — yet the stored RSI is
`100` (pandas' `g/0 = ∞` arithmetic), and that is the value the downstream
read `last.get('RSI14', 50)` returns, not 50. -/
theorem claim3_counterexample :
    (perdaCol ((List.range 15).map fun j : ℕ => some ((j:ℚ)))).getD 14 none
      = some 0
    ∧ rsiUsado (some ⟨(rsi14Col ((List.range 15).map fun j : ℕ => some ((j:ℚ)))).getD 14 none,
        none, none, none, none, none⟩) ≠ 50 := by
  refine ⟨incr15_perda, ?_⟩
  have h100 : rsiUsado (some
      ⟨(rsi14Col ((List.range 15).map fun j : ℕ => some ((j:ℚ)))).getD 14 none,
        none, none, none, none, none⟩) = 100 := by
    rw [rsiUsado]
    show ((rsi14Col ((List.range 15).map fun j : ℕ => some ((j:ℚ)))).getD 14 none).getD 50
      = 100
    rw [incr15_rsi]
    rfl
  rw [h100]
  norm_num

/-- **C3 (corrected).**  The RSI column of the source: when the average
loss is `0` the entry is `100` if the average gain is positive (float
`∞`-arithmetic) and `NaN` if both are zero; with insufficient history
(index < 14) it is `NaN`; the neutral-50 substitution happens only when the
whole indicator column is missing (`last.get('RSI14', 50)` on a frame
without the column); and the rows surviving `dropna` always carry a present
(non-`NaN`) RSI, so no `NaN` reaches the downstream filters. -/
theorem claim3_amended_rsi_fallback :
    (∀ (closes : List (Option ℚ)) (i : ℕ) (g : ℚ),
        (perdaCol closes).getD i none = some 0 →
        (ganhoCol closes).getD i none = some g →
        (rsi14Col closes).getD i none = (if g = 0 then none else some 100))
    ∧ (∀ (closes : List (Option ℚ)) (i : ℕ), i < 14 →
        (rsi14Col closes).getD i none = none)
    ∧ rsiUsado none = 50
    ∧ (∀ (bars : List Bar) (il : List IndRow) (b : Bar) (ir : IndRow),
        (b, some ir) ∈ dropnaRows bars (some il) → ir.rsi14.isSome = true) := by
  refine ⟨?_, ?_, rfl, ?_⟩
  · intro closes i g hp hg
    have hi : i < closes.length := by
      by_contra hge
      rw [getD_eq_none_of_le _ i (by rw [perdaCol_length]; omega)] at hp
      exact Option.noConfusion hp
    rw [rsi14Col_getD_ss closes i hi hg hp, if_pos rfl]
  · intro closes i h14
    rcases lt_or_le i closes.length with hi | hi
    · have hgan : (ganhoCol closes).getD i none = none := by
        rw [ganhoCol, rollingApply_getD _ _ _ _ (by simpa [clipLower0, length_diffQ] using hi)]
        by_cases h13 : i + 1 < 14
        · rw [if_pos h13]
        · rw [if_neg h13]
          have hnone : none ∈ ((List.range 14).map fun k =>
              (clipLower0 (diffQ closes)).getD (i - k) none) := by
            refine List.mem_map.mpr ⟨13, by simp, ?_⟩
            have hi0 : i - 13 = 0 := by omega
            rw [hi0, clipLower0, getD_map_optMap]
            have hd0 : (diffQ closes).getD 0 none = none := by
              rcases Nat.eq_zero_or_pos closes.length with hz | hpos
              · exact getD_eq_none_of_le _ 0 (by rw [length_diffQ]; omega) none
              · rw [diffQ_getD closes 0 hpos, if_pos rfl]
            rw [hd0]
            rfl
          rw [seqOpt_none_mem hnone]
          rfl
      rw [rsi14Col_getD closes i hi, hgan]
    · exact getD_eq_none_of_le _ i (by rw [rsi14Col_length]; omega) none
  · intro bars il b ir h
    obtain ⟨bi, hfil, heq⟩ := List.mem_map.mp h
    obtain ⟨hmem, hok⟩ := List.mem_filter.mp hfil
    have h2 : bi.2 = ir := by
      have hsnd := congrArg Prod.snd heq
      simpa using hsnd
    rw [h2] at hok
    simp only [indOk, Bool.and_eq_true] at hok
    exact hok.2.1.1.1.1.1

/-- Witness for C3 at concrete inputs: zero average loss with positive
average gain at the last bar of the increasing series gives RSI `100`; an
early bar has an undefined RSI; a missing indicator column reads as 50. -/
theorem claim3_witness :
    (rsi14Col ((List.range 15).map fun j : ℕ => some ((j:ℚ)))).getD 14 none
      = (if (1:ℚ) = 0 then none else some 100)
    ∧ (rsi14Col ((List.range 15).map fun j : ℕ => some ((j:ℚ)))).getD 0 none = none
    ∧ rsiUsado none = 50 :=
  ⟨claim3_amended_rsi_fallback.1 _ 14 1 incr15_perda incr15_ganho,
    claim3_amended_rsi_fallback.2.1 _ 0 (by norm_num),
    claim3_amended_rsi_fallback.2.2.1⟩

/-! ## The universe resolver (C9) -/

lemma mapaNomes_foldl (l : List StockEntry) (init : String → Option String)
    (t : String) :
    (l.foldl
        (fun acc d => fun k =>
          if k = d.stock then some (d.name.getD d.stock) else acc k)
        init) t
      = (match l.reverse.find? (fun x => x.stock == t) with
          | some d => some (d.name.getD d.stock)
          | none => init t) := by
  induction l generalizing init with
  | nil => rfl
  | cons d l ih =>
    rw [List.foldl_cons, ih, List.reverse_cons, List.find?_append]
    cases hf : l.reverse.find? (fun x => x.stock == t) with
    | some e => rfl
    | none =>
      simp only [Option.none_or]
      cases hpd : (d.stock == t) with
      | true =>
        have hfind : List.find? (fun x : StockEntry => x.stock == t) [d] = some d := by
          simp [List.find?, hpd]
        rw [hfind, if_pos (beq_iff_eq.mp hpd).symm]
      | false =>
        have hfind : List.find? (fun x : StockEntry => x.stock == t) [d] = none := by
          simp [List.find?, hpd]
        rw [hfind, if_neg fun ht => by simp [ht] at hpd]

/-- Counterexample for C9: a retained catalog entry whose name field is the
empty string is mapped to the empty string, not to the ticker — the
`d.get('name', d['stock'])` fallback fires only when the key is missing. -/
theorem claim9_counterexample :
    ¬ (mapaNomes [⟨"XYZ31", some ""⟩] ("XYZ31") = some ("XYZ31")) := by
  decide

/-- **C9 (corrected).**  The resolver retains exactly the catalog entries
with a BDR suffix, and the name map sends a ticker to
`d.get('name', d['stock'])` of the *last* retained entry carrying it: the
stored name whenever the key is present (even when it is the empty
string), and the ticker itself only when the name key is absent. -/
theorem claim9_amended_name_map :
    (∀ (dados : List StockEntry) (d : StockEntry),
        d ∈ bdrsRaw dados ↔ d ∈ dados ∧ isBDR d.stock = true)
    ∧ ∀ (dados : List StockEntry) (t : String) (d : StockEntry),
        (bdrsRaw dados).reverse.find? (fun x => x.stock == t) = some d →
        mapaNomes dados t = some (d.name.getD d.stock) := by
  constructor
  · intro dados d
    exact List.mem_filter
  · intro dados t d h
    rw [mapaNomes, mapaNomes_foldl, h]

/-- Witness for C9: a single retained entry with a missing name key maps to
its own ticker. -/
theorem claim9_witness :
    mapaNomes [⟨"AAA34", none⟩] ("AAA34") = some ("AAA34") := by
  have h := claim9_amended_name_map.2 [⟨"AAA34", none⟩] ("AAA34")
    ⟨"AAA34", none⟩ (by decide)
  simpa using h

/-! ## Fibonacci (C10) -/

/-- **C10.**  With fewer than 50 frame rows `calcular_fibonacci` returns
`None`, the Fibonacci condition of `gerar_sinal` contributes no score and
the `"Fibo 61.8"` signal never appears; with at least 50 rows it returns
the single level `low + (high - low) * 0.618` of the full-history maximum
high and minimum low. -/
theorem claim10_fibonacci :
    (∀ (highs lows : List ℚ) (row : SigRow), highs.length < 50 →
        calcularFibonacci highs lows = none
        ∧ (gerarSinal row highs lows).score
            = (gerarSinal row ([] : List ℚ) ([] : List ℚ)).score
        ∧ "Fibo 61.8" ∉ (gerarSinal row highs lows).sinais)
    ∧ ∀ highs lows : List ℚ, 50 ≤ highs.length →
        calcularFibonacci highs lows
          = some (listMin lows + (listMax highs - listMin lows) * 0.618) := by
  constructor
  · intro highs lows row h
    have hf : calcularFibonacci highs lows = none := by
      simp [calcularFibonacci, h]
    have hf0 : calcularFibonacci ([] : List ℚ) ([] : List ℚ) = none := by
      simp [calcularFibonacci]
    refine ⟨hf, by simp only [gerarSinal, hf, hf0], ?_⟩
    obtain ⟨cl, sm, rs, st, bb⟩ := row
    cases cl <;> cases sm <;> cases rs <;> cases st <;> cases bb <;>
      (simp only [gerarSinal, hf]; first | (split_ifs <;> decide) | decide)
  · intro highs lows h
    rw [calcularFibonacci, if_neg (by omega)]

/-- Witness for C10: a one-bar history yields no Fibonacci level and no
`"Fibo 61.8"` signal; a 50-bar history yields the 61.8 % level of its
high/low range. -/
theorem claim10_witness :
    calcularFibonacci [(1:ℚ)] [(2:ℚ)] = none
    ∧ "Fibo 61.8" ∉ (gerarSinal ⟨none, none, none, none, none⟩ [(1:ℚ)] [(2:ℚ)]).sinais
    ∧ calcularFibonacci (List.replicate 50 (2:ℚ)) (List.replicate 50 (1:ℚ))
        = some (listMin (List.replicate 50 (1:ℚ))
            + (listMax (List.replicate 50 (2:ℚ))
                - listMin (List.replicate 50 (1:ℚ))) * 0.618) := by
  have h1 := claim10_fibonacci.1 [(1:ℚ)] [(2:ℚ)] ⟨none, none, none, none, none⟩
    (by norm_num)
  exact ⟨h1.1, h1.2.2, claim10_fibonacci.2 _ _ (by simp)⟩

/-! ## Ranking (C2) -/

lemma resLEb_iff (a b : Row) :
    resLEb a b = true ↔
      (a.tendenciaAlta = true ∧ b.tendenciaAlta = false)
      ∨ (a.tendenciaAlta = b.tendenciaAlta ∧ a.quedaDia ≤ b.quedaDia) := by
  unfold resLEb
  cases ha : a.tendenciaAlta <;> cases hb : b.tendenciaAlta <;>
    simp [decide_eq_true_iff]

lemma resLEb_trans : ∀ a b c : Row, resLEb a b → resLEb b c → resLEb a c := by
  intro a b c h1 h2
  rw [resLEb_iff] at *
  rcases h1 with ⟨ha, hb⟩ | ⟨hab, hq1⟩ <;> rcases h2 with ⟨hb2, hc⟩ | ⟨hbc, hq2⟩
  · rw [hb] at hb2
    exact absurd hb2 (by simp)
  · exact Or.inl ⟨ha, hbc.symm.trans hb⟩
  · exact Or.inl ⟨hab.trans hb2, hc⟩
  · exact Or.inr ⟨hab.trans hbc, le_trans hq1 hq2⟩

lemma resLEb_total : ∀ a b : Row, resLEb a b || resLEb b a := by
  intro a b
  rcases le_total a.quedaDia b.quedaDia with h | h <;>
    cases ha : a.tendenciaAlta <;> cases hb : b.tendenciaAlta <;>
      simp [resLEb, ha, hb, h]

/-- **C2.**  The output frame is sorted by the strategy-priority scheme:
strategy rows (priority score 1, close above SMA200) come before
contra-trend rows (priority score 0), and within equal priority the rows
are ordered by day-over-day change ascending, i.e. biggest drop first. -/
theorem claim2_sorted_by_priority (l : List Row) :
    (sortResults l).Pairwise prioRel := by
  refine (List.sorted_mergeSort resLEb_trans resLEb_total l).imp ?_
  intro a b hab
  rw [resLEb_iff] at hab
  rcases hab with ⟨ha, hb⟩ | ⟨hab, hq⟩
  · exact Or.inl (by simp [prioScore, ha, hb])
  · exact Or.inr ⟨by simp [prioScore, hab], hq⟩

end MonitorBDR
